import Mathlib

/-!
# Verification of the murmur voice-transcription pipeline

Shallow embedding, in Lean 4, of the parts of the `hydai/murmur` Rust
workspace that the verified properties speak about:

* `crates/lt-stt/src/chunker.rs`      — `AudioChunker` (buffering + WAV flush)
* `crates/lt-audio/src/vad.rs`        — `VadProcessor` RMS computation
* `crates/lt-audio/src/resampler.rs`  — `AudioResampler`
* `crates/lt-stt/src/elevenlabs.rs`   — reconnect backoff schedule
* `crates/lt-pipeline/src/state.rs`   — pipeline state machine
* `crates/lt-pipeline/src/orchestrator.rs` — transcription-event loop and
  post-processing of `PipelineOrchestrator::start`
* `crates/lt-pipeline/src/commands.rs` — voice-command detection

Rust `u64`/`Nat` values are modelled as `Nat` (with explicit `% 2 ^ 64`
where an overflow could matter), `i16`/`i32` samples as `Int`, `f64`
arithmetic as exact `ℚ` arithmetic, and Rust `String`/`&str` either as
Lean `String` (where only whole-string operations occur) or as `List Char`
(where byte indexing matters, see the command-detection section).
Fallible Rust functions returning `Result` are modelled with `Except` or
`Option`.
-/

namespace Murmur

/-! ## Audio chunker — `crates/lt-stt/src/chunker.rs`

Samples (`i16` in Rust) are modelled as `Int`; byte streams as `List Nat`
(each element one byte, < 256).
-/

/-- `lt_core::stt::AudioChunk`: PCM samples plus a timestamp. -/
structure AudioChunk where
  data : List Int
  timestamp_ms : Nat
deriving Repr, DecidableEq

/-- `AudioChunker` state (chunker.rs lines 8-17). -/
structure AudioChunker where
  buffer : List Int
  sample_rate : Nat
  chunk_duration_ms : Nat
  last_flush_ms : Nat
deriving Repr, DecidableEq

/-- `AudioChunker::new` (chunker.rs lines 24-31). -/
def AudioChunker.new (chunk_duration_ms : Nat) : AudioChunker :=
  { buffer := [], sample_rate := 16000,
    chunk_duration_ms := chunk_duration_ms, last_flush_ms := 0 }

/-- `AudioChunker::add_chunk` (chunker.rs lines 34-47): append the chunk's
samples; set `last_flush_ms` to the chunk timestamp when it is currently 0. -/
def AudioChunker.add_chunk (c : AudioChunker) (chunk : AudioChunk) : AudioChunker :=
  let c1 := { c with buffer := c.buffer ++ chunk.data }
  if c1.last_flush_ms = 0 then { c1 with last_flush_ms := chunk.timestamp_ms } else c1

/-- `AudioChunker::should_flush` (chunker.rs lines 50-57).  Rust
`saturating_sub` on `u64` is exactly truncated subtraction on `Nat`. -/
def AudioChunker.should_flush (c : AudioChunker) (current_timestamp_ms : Nat) : Bool :=
  if c.buffer.isEmpty then false
  else decide (c.chunk_duration_ms ≤ current_timestamp_ms - c.last_flush_ms)

/-- Little-endian bytes of a 16-bit unsigned value. -/
def u16le (n : Nat) : List Nat := [n % 256, n / 256 % 256]

/-- Little-endian bytes of a 32-bit unsigned value. -/
def u32le (n : Nat) : List Nat :=
  [n % 256, n / 256 % 256, n / 2 ^ 16 % 256, n / 2 ^ 24 % 256]

/-- Little-endian two's-complement bytes of an `i16` sample. -/
def i16le (s : Int) : List Nat := u16le (s % 65536).toNat

/-- Modelled from the spec: the WAV encoder of `AudioChunker::encode_wav`
(chunker.rs lines 84-110) delegates to the external `hound` crate, which is
not part of this repository's sources.  The spec fixes its output format:
"single-channel, 16-bit, fixed-sample-rate WAV byte stream (44-byte
canonical header + raw little-endian PCM data)", i.e. a RIFF header
(`"RIFF"`, chunk size, `"WAVE"`), a 16-byte `"fmt "` subchunk (PCM format 1,
1 channel, the sample rate, byte rate, block align 2, 16 bits per sample)
and a `"data"` subchunk followed by the samples in little-endian order. -/
def encode_wav (sample_rate : Nat) (samples : List Int) : List Nat :=
  let dataLen := 2 * samples.length
  [0x52, 0x49, 0x46, 0x46] ++ u32le (36 + dataLen) ++ [0x57, 0x41, 0x56, 0x45] ++
  [0x66, 0x6d, 0x74, 0x20] ++ u32le 16 ++ u16le 1 ++ u16le 1 ++ u32le sample_rate ++
  u32le (2 * sample_rate) ++ u16le 2 ++ u16le 16 ++
  [0x64, 0x61, 0x74, 0x61] ++ u32le dataLen ++ samples.flatMap i16le

/-- `AudioChunker::flush` (chunker.rs lines 61-76): returns the updated
chunker state plus the flushed bytes.  Empty buffer: early return of empty
bytes with the state untouched.  Non-empty buffer: WAV-encode the buffer,
clear it, reset `last_flush_ms` to 0.  (In Rust the result is a `Result`
whose only error paths are inside the `hound` writer; the spec-modelled
encoder is total, so the success value is modelled directly.) -/
def AudioChunker.flush (c : AudioChunker) : AudioChunker × List Nat :=
  if c.buffer.isEmpty then (c, [])
  else ({ c with buffer := [], last_flush_ms := 0 }, encode_wav c.sample_rate c.buffer)

/-- Timestamp of the first chunk in the list with a non-zero timestamp
(0 when there is none): what `add_chunk`'s `last_flush_ms == 0` test
actually records over a sequence of calls. -/
def firstNonzeroTs : List AudioChunk → Nat
  | [] => 0
  | ch :: rest => if ch.timestamp_ms = 0 then firstNonzeroTs rest else ch.timestamp_ms

/-! ## Voice activity detection — `crates/lt-audio/src/vad.rs`

`VadProcessor::calculate_rms` normalizes each `i16` sample by
`i16::MAX = 32767`, averages the squares in `f64`, and takes a square
root.  The `f64` arithmetic is modelled exactly over `ℚ`; since the square
root is monotone and the claims about `rms` are interval bounds, they are
stated about the *squared* RMS (`rms ∈ [0,1]` iff `rms² ∈ [0,1]`, and
`rms > 1` iff `rms² > 1`).  The floating-point rounding error of the real
computation (relative error on the order of `2⁻⁵²` per operation, and
`2⁻²⁴` for the final `f32` cast) is orders of magnitude below the margins
in the statements proved here (≥ `3·10⁻⁵`), so every strict comparison
proved over `ℚ` also holds of the `f64`/`f32` computation. -/

/-- Squared value of `VadProcessor::calculate_rms` (vad.rs lines 40-55):
`0` for empty input, else the mean of `(sample / 32767)²`. -/
def calculate_rms_sq (samples : List Int) : ℚ :=
  if samples.isEmpty then 0
  else (samples.map (fun s => ((s : ℚ) / 32767) ^ 2)).sum / samples.length

/-! ## Resampler — `crates/lt-audio/src/resampler.rs`

`f64` arithmetic of the linear-interpolation branch is modelled exactly
over `ℚ` (the branch is not exercised by the verified property, which is
about the equal-rates path that returns before any `f64` arithmetic). -/

/-- `AudioResampler` (resampler.rs lines 5-9). -/
structure AudioResampler where
  input_sample_rate : Nat
  output_sample_rate : Nat
  channels : Nat
deriving Repr, DecidableEq

/-- `AudioResampler::new` (resampler.rs lines 18-34): zero channels is
rejected with `UnsupportedFormat`. -/
def AudioResampler.new (input_sample_rate output_sample_rate channels : Nat) :
    Except String AudioResampler :=
  if channels = 0 then .error "Number of channels must be > 0"
  else .ok ⟨input_sample_rate, output_sample_rate, channels⟩

/-- Wrap an integer into the `i16` range (Rust `as i16` on `i32`). -/
def wrapI16 (z : Int) : Int := (z + 32768) % 65536 - 32768

/-- Clamp an integer into the `i16` range (Rust saturating `as i16` on a
float). -/
def clampI16 (z : Int) : Int := max (-32768) (min 32767 z)

/-- Rust `f64::round`: round half away from zero. -/
def roundHalfAway (q : ℚ) : Int :=
  if 0 ≤ q then Rat.floor (q + 1 / 2) else -Rat.floor (-q + 1 / 2)

/-- `AudioResampler::to_mono` (resampler.rs lines 86-107): identity for one
channel, else per-frame average (Rust `i32` division truncates toward zero,
as does Lean `Int` division; the `as i16` cast of the average wraps). -/
def AudioResampler.to_mono (r : AudioResampler) (input : List Int) : List Int :=
  if r.channels = 1 then input
  else
    (List.range (input.length / r.channels)).map (fun frame_idx =>
      let sum := ((List.range r.channels).map (fun ch =>
        let idx := frame_idx * r.channels + ch
        if idx < input.length then input.getD idx 0 else 0)).sum
      wrapI16 (sum / (r.channels : Int)))

/-- `AudioResampler::resample` (resampler.rs lines 43-83): empty input
short-circuits; then mono conversion; equal rates return the mono signal
unchanged; otherwise linear interpolation at ratio `out/in`. -/
def AudioResampler.resample (r : AudioResampler) (input : List Int) :
    Except String (List Int) :=
  if input.isEmpty then .ok []
  else
    let mono_input := r.to_mono input
    if r.input_sample_rate = r.output_sample_rate then .ok mono_input
    else
      let ratio : ℚ := (r.output_sample_rate : ℚ) / (r.input_sample_rate : ℚ)
      let output_len := (Rat.ceil ((mono_input.length : ℚ) * ratio)).toNat
      .ok ((List.range output_len).map (fun i =>
        let input_pos : ℚ := (i : ℚ) / ratio
        let index := (Rat.floor input_pos).toNat
        let frac : ℚ := input_pos - index
        if index + 1 < mono_input.length then
          let s0 : ℚ := (mono_input.getD index 0 : Int)
          let s1 : ℚ := (mono_input.getD (index + 1) 0 : Int)
          clampI16 (roundHalfAway (s0 + (s1 - s0) * frac))
        else if index < mono_input.length then mono_input.getD index 0
        else 0))

/-! ## Reconnect backoff — `crates/lt-stt/src/elevenlabs.rs` -/

/-- `ReconnectConfig` (elevenlabs.rs lines 42-47). -/
structure ReconnectConfig where
  max_retries : Nat
  base_delay_ms : Nat
  max_delay_ms : Nat
deriving Repr, DecidableEq

/-- `ReconnectConfig::default` (elevenlabs.rs lines 49-57). -/
def ReconnectConfig.default : ReconnectConfig :=
  { max_retries := 10, base_delay_ms := 1000, max_delay_ms := 30000 }

/-- The sleep computed before retry number `retry_count`
(elevenlabs.rs lines 144-147): `min(base_delay_ms * 2^retry_count,
max_delay_ms)`, with the `u64` multiplication and power reduced mod
`2 ^ 64` (Rust release-mode wrapping). -/
def backoff_delay (cfg : ReconnectConfig) (retry_count : Nat) : Nat :=
  min (cfg.base_delay_ms * (2 ^ retry_count % 2 ^ 64) % 2 ^ 64) cfg.max_delay_ms

/-- The `connect_with_retry` loop (elevenlabs.rs lines 113-162), abstracted
over the outcome of each connection attempt (`attempt_ok r` = does the
attempt made when `retry_count = r` succeed).  Returns the list of delays
slept, in order, and whether a connection was eventually obtained (`false`
models the fatal "connection failed after N retries" error).  The loop is
modelled with explicit fuel; `connect_with_retry_run` supplies enough fuel
(`max_retries + 1`) for the loop, which increments `retry_count` at every
failed attempt and errors out as soon as `retry_count ≥ max_retries`, to
run to completion. -/
def connect_with_retry_aux (cfg : ReconnectConfig) (attempt_ok : Nat → Bool) :
    Nat → Nat → List Nat × Bool
  | 0, _ => ([], false)
  | fuel + 1, retry_count =>
    if attempt_ok retry_count then ([], true)
    else if cfg.max_retries ≤ retry_count then ([], false)
    else
      let rest := connect_with_retry_aux cfg attempt_ok fuel (retry_count + 1)
      (backoff_delay cfg retry_count :: rest.1, rest.2)

/-- Entry point of the retry loop: `retry_count` starts at 0. -/
def connect_with_retry_run (cfg : ReconnectConfig) (attempt_ok : Nat → Bool) :
    List Nat × Bool :=
  connect_with_retry_aux cfg attempt_ok (cfg.max_retries + 1) 0

/-! ## Pipeline state machine — `crates/lt-pipeline/src/state.rs` -/

/-- `PipelineState` (state.rs lines 6-19). -/
inductive PipelineState where
  | Idle
  | Recording
  | Transcribing
  | Processing
  | Done
  | Error
deriving Repr, DecidableEq

/-! ## Orchestrator — `crates/lt-pipeline/src/orchestrator.rs`

`PipelineOrchestrator::start` first inspects the current state under the
state mutex (lines 72-86), then (on success) sets it to `Recording`
(line 91) and spawns the transcription task.  The guard-plus-transition is
a pure function of the state, modelled by `start_step`. -/

/-- Lines 88-92 of orchestrator.rs, reached only with the state already
reset to `Idle`: the pipeline transitions to `Recording` and the start
continues (`true` = no `InvalidState` error). -/
def start_from_idle : PipelineState × Bool := (PipelineState.Recording, true)

/-- The state guard and transition of `PipelineOrchestrator::start`
(orchestrator.rs lines 72-92).  Result: the pipeline state after the call
and whether the call passed the guard (`false` models the
`MurmurError::InvalidState` early return, which leaves the state
untouched).  `Done` and `Error` are first reset to `Idle` (line 81) and
then continue exactly like a start from `Idle`. -/
def start_step : PipelineState → PipelineState × Bool
  | .Recording => (.Recording, false)
  | .Transcribing => (.Transcribing, false)
  | .Processing => (.Processing, false)
  | .Done => start_from_idle
  | .Error => start_from_idle
  | .Idle => start_from_idle

/-- `lt_core::stt::TranscriptionEvent` (stt.rs lines 18-32).  Constructor
names carry a `Tr` suffix; they model `Partial`, `Committed` and `Error`. -/
inductive TranscriptionEvent where
  | partialTr (text : String) (timestamp_ms : Nat)
  | committedTr (text : String) (timestamp_ms : Nat)
  | errorTr (message : String)
deriving Repr, DecidableEq

/-- Mutable state of the transcription-task loop (orchestrator.rs
lines 117-119). -/
structure TransLoopState where
  full_transcription : String
  last_partial_text : String
  last_timestamp : Nat
deriving Repr, DecidableEq

/-- One iteration of the transcription-event loop (orchestrator.rs
lines 121-171), restricted to its effect on the loop-local accumulators
(the emitted broadcast events and the `Recording → Transcribing` state
nudge do not feed back into them).  A `Partial` records its timestamp and,
when non-empty, becomes the fallback text; a `Committed` is appended to
`full_transcription` with a separating space when the accumulator is
already non-empty; an `Error` only breaks the loop (handled in
`consumedEvents`). -/
def transStep (st : TransLoopState) (e : TranscriptionEvent) : TransLoopState :=
  match e with
  | .partialTr text ts =>
    let st1 := { st with last_timestamp := ts }
    if text = "" then st1 else { st1 with last_partial_text := text }
  | .committedTr text ts =>
    let full :=
      (if st.full_transcription = "" then st.full_transcription
       else st.full_transcription ++ " ") ++ text
    { st with full_transcription := full, last_timestamp := ts }
  | .errorTr _ => st

/-- The prefix of the event stream the loop actually consumes: everything
up to and including the first `Error` event, which makes the loop `break`
(orchestrator.rs line 168); without an `Error`, the whole stream (the loop
ends when the channel closes). -/
def consumedEvents : List TranscriptionEvent → List TranscriptionEvent
  | [] => []
  | e :: rest =>
    match e with
    | .errorTr _ => [e]
    | _ => e :: consumedEvents rest

/-- Run the transcription-event loop over a stream of events, from the
initial accumulators `("", "", 0)` (orchestrator.rs lines 117-171). -/
def runLoop (events : List TranscriptionEvent) : TransLoopState :=
  (consumedEvents events).foldl transStep
    { full_transcription := "", last_partial_text := "", last_timestamp := 0 }

/-- The fallback rule (orchestrator.rs lines 173-181) applied when the loop
exits: if nothing was committed but some non-empty partial was seen, the
last partial text becomes the final transcription. -/
def finalTranscription (events : List TranscriptionEvent) : String :=
  let st := runLoop events
  if st.full_transcription = "" ∧ ¬ st.last_partial_text = "" then st.last_partial_text
  else st.full_transcription

/-- Text of the last `Partial` event with non-empty text in the list
(`""` when there is none). -/
def lastNonEmptyPartialText (events : List TranscriptionEvent) : String :=
  events.foldl
    (fun acc e =>
      match e with
      | .partialTr t _ => if t = "" then acc else t
      | _ => acc) ""

/-- `lt_core::llm::ProcessingOutput` (llm.rs lines 30-38), without the
opaque JSON metadata. -/
structure ProcessingOutput where
  text : String
  processing_time_ms : Nat
deriving Repr, DecidableEq

/-- Post-processing tail of the transcription task (orchestrator.rs
lines 184-308), as a function of the accumulated `full_transcription` and
of the outcome of `llm_processor.process` (an external call, passed in as
an `Except`).  Result: the texts passed to `output_sink.output_text` in
order, the text of the emitted `FinalResult` event (if any), and the final
pipeline state.  On LLM success the processed text is written and becomes
the `FinalResult`, state `Done`; on LLM failure the raw transcription is
written and becomes the `FinalResult`, state `Error`; with an empty
transcription nothing is written or emitted and the state returns to
`Idle`.  (A failure of the sink itself is only logged / reported as a
recoverable event and does not change any of these three results.) -/
def postProcess (full_transcription : String)
    (llmResult : Except String ProcessingOutput) :
    List String × Option String × PipelineState :=
  if full_transcription = "" then ([], none, .Idle)
  else
    match llmResult with
    | .ok output => ([output.text], some output.text, .Done)
    | .error _ => ([full_transcription], some full_transcription, .Error)

/-! ## Voice-command detection — `crates/lt-pipeline/src/commands.rs`

`detect_command` lowercases the trimmed input and tests ASCII prefixes on
the lowercased string, but then slices the *original* string at the byte
length of the matched prefix (`trimmed[prefix_len..]`).  Rust `&str` byte
slicing panics when the index is not a character boundary, and
`str::to_lowercase` can change byte lengths, so the totality of
`detect_command` is a real property of the interplay between the prefix
set and the Unicode lowercase mapping.

The model works on `List Char` (the character sequence of the Rust
string); byte indices are tracked through `utf8Size`, and the fallible
byte slice is `byteDrop`, which returns `none` exactly when the Rust slice
would panic.  `detect_command` therefore returns an `Option`, with `none`
modelling a panic.

`str::to_lowercase` itself is standard-library code outside this
repository, so it is kept abstract: the model is parameterized by
`lc : Char → List Char` (the per-character lowercase expansion; Rust
lowercases char by char, İ being the only character with a multi-character
mapping), and the theorems assume of `lc` only facts true of the real
Unicode lowercase mapping, recorded in `LowerNonEmpty` and
`LowerAsciiShape` below.  Similarly `char::is_whitespace` (used by `trim`)
is an arbitrary predicate `ws`. -/

/-- UTF-8 encoded length, in bytes, of one character. -/
def utf8Size (c : Char) : Nat :=
  if c.toNat < 0x80 then 1
  else if c.toNat < 0x800 then 2
  else if c.toNat < 0x10000 then 3
  else 4

/-- Drop exactly `n` bytes from the front of a character list: `some` of
the remainder when `n` is a character boundary, `none` (the model of a
Rust byte-slice panic) otherwise. -/
def byteDrop : List Char → Nat → Option (List Char)
  | s, 0 => some s
  | [], _ + 1 => none
  | c :: rest, n + 1 =>
    if utf8Size c ≤ n + 1 then byteDrop rest (n + 1 - utf8Size c) else none

/-- Rust `str::trim` with the whitespace class abstracted as `ws`. -/
def trim (ws : Char → Bool) (s : List Char) : List Char :=
  ((s.dropWhile ws).reverse.dropWhile ws).reverse

/-- Rust `str::starts_with(pat)`: `strStartsWith s p` is true when `p` is
an initial segment of `s`. -/
def strStartsWith : List Char → List Char → Bool
  | _, [] => true
  | [], _ :: _ => false
  | c :: s, d :: p => c = d && strStartsWith s p

/-- U+212A KELVIN SIGN, the only non-ASCII character whose Unicode
lowercase mapping is a single ASCII letter (`k`). -/
def kelvinChar : Char := Char.ofNat 0x212A

/-- U+0130 LATIN CAPITAL LETTER I WITH DOT ABOVE, the only character whose
Unicode lowercase mapping has more than one character (`i` followed by
U+0307). -/
def capIDotChar : Char := Char.ofNat 0x130

/-- U+0307 COMBINING DOT ABOVE (second character of İ's lowercase). -/
def dotAboveChar : Char := Char.ofNat 0x307

/-- True of Unicode (and of Rust `char::to_lowercase`): every character
lowercases to at least one character. -/
def LowerNonEmpty (lc : Char → List Char) : Prop := ∀ c, ¬ lc c = []

/-- True of Unicode: if the first character of `lc c` is ASCII then either
`c` is a one-byte (ASCII) character with a single-character lowercase,
or `c` is KELVIN SIGN (lowercase `"k"`), or `c` is İ (lowercase
`"i\u{307}"`).  These are the only ways `str::to_lowercase` can produce an
ASCII character, per `UnicodeData.txt` simple mappings (the sole non-ASCII
character with ASCII simple lowercase is U+212A) and `SpecialCasing.txt`
(the sole multi-character lowercase mapping is U+0130). -/
def LowerAsciiShape (lc : Char → List Char) : Prop :=
  ∀ c d ds, lc c = d :: ds → d.toNat < 128 →
    (ds = [] ∧ utf8Size c = 1) ∨
    (c = kelvinChar ∧ d = 'k' ∧ ds = []) ∨
    (c = capIDotChar ∧ d = 'i' ∧ ds = [dotAboveChar])

/-- `lt_core::llm::ProcessingTask` (llm.rs lines 9-27), over character
lists. -/
inductive ProcessingTask where
  | PostProcess (text : List Char) (dictionary_terms : List (List Char))
  | Shorten (text : List Char)
  | ChangeTone (text : List Char) (target_tone : List Char)
  | GenerateReply (context : List Char)
  | Translate (text : List Char) (target_language : List Char)
deriving Repr, DecidableEq

/-- `CommandDetection` (commands.rs lines 5-12). -/
structure CommandDetection where
  task : ProcessingTask
  content : List Char
  command_name : Option (List Char)
deriving Repr, DecidableEq

/-- The `trimmed[prefix_len..].trim()` step shared by the command branches
(commands.rs lines 34, 51, 69, 87): byte-slice the original trimmed text,
then trim the content; `none` models the byte-slice panic. -/
def slice_trim (ws : Char → Bool) (trimmed : List Char) (prefix_len : Nat) :
    Option (List Char) :=
  (byteDrop trimmed prefix_len).map (trim ws)

/-- `detect_command` (commands.rs lines 23-127), parameterized by the
lowercase expansion `lc` and whitespace class `ws`.  Branches, prefix
lengths, and the fall-through of a colon-less `translate to` to the
default `PostProcess` mirror the Rust code.  In the `translate` branch,
`after_prefix.find(':')` is a byte-level search for `0x3A`; a UTF-8
continuation or lead byte of a multi-byte character is `≥ 0x80`, so the
byte `0x3A` occurs exactly at the `':'` characters of `after_prefix` and
the byte index found is a character boundary, as is `colon_pos + 1`
(`':'` is one byte); the two slices around the colon are therefore
modelled by splitting the character list at its first `':'`. -/
def detect_command (lc : Char → List Char) (ws : Char → Bool)
    (text : List Char) (dictionary_terms : List (List Char)) :
    Option CommandDetection :=
  let trimmed := trim ws text
  let lower := trimmed.flatMap lc
  if strStartsWith lower ("shorten this:".toList) ||
      strStartsWith lower ("shorten:".toList) then
    let prefix_len := if strStartsWith lower ("shorten this:".toList) then 13 else 8
    (slice_trim ws trimmed prefix_len).map (fun content =>
      { task := .Shorten content, content := content,
        command_name := some "shorten".toList })
  else if strStartsWith lower ("make it formal:".toList) ||
      strStartsWith lower ("formalize:".toList) then
    let prefix_len := if strStartsWith lower ("make it formal:".toList) then 15 else 10
    (slice_trim ws trimmed prefix_len).map (fun content =>
      { task := .ChangeTone content "formal".toList, content := content,
        command_name := some "formalize".toList })
  else if strStartsWith lower ("make it casual:".toList) ||
      strStartsWith lower ("casualize:".toList) then
    let prefix_len := if strStartsWith lower ("make it casual:".toList) then 15 else 10
    (slice_trim ws trimmed prefix_len).map (fun content =>
      { task := .ChangeTone content "casual".toList, content := content,
        command_name := some "casualize".toList })
  else if strStartsWith lower ("reply to:".toList) ||
      strStartsWith lower ("generate reply:".toList) then
    let prefix_len := if strStartsWith lower ("generate reply:".toList) then 15 else 9
    (slice_trim ws trimmed prefix_len).map (fun content =>
      { task := .GenerateReply content, content := content,
        command_name := some "reply".toList })
  else if strStartsWith lower ("translate to ".toList) then
    match byteDrop trimmed 13 with
    | none => none
    | some after_prefix =>
      let parts := after_prefix.span (fun c => !(c == ':'))
      if parts.2.isEmpty then
        some { task := .PostProcess trimmed dictionary_terms, content := trimmed,
               command_name := none }
      else
        let language := trim ws parts.1
        let content := trim ws (parts.2.drop 1)
        some { task := .Translate content language, content := content,
               command_name := some ("translate to ".toList ++ language) }
  else
    some { task := .PostProcess trimmed dictionary_terms, content := trimmed,
           command_name := none }

/-- ASCII-only lowercasing of a single character (`A`-`Z` shifted by 32,
everything else unchanged). -/
def asciiToLower (c : Char) : Char :=
  if 65 ≤ c.toNat ∧ c.toNat ≤ 90 then Char.ofNat (c.toNat + 32) else c

/-- A small concrete instance of the abstract lowercase expansion, used to
evaluate `detect_command` on concrete inputs: ASCII case shift plus the
two special Unicode characters relevant to `LowerAsciiShape`. -/
def lcModel (c : Char) : List Char :=
  if c = kelvinChar then ['k']
  else if c = capIDotChar then ['i', dotAboveChar]
  else [asciiToLower c]

/-- Number of `'k'` characters in a list (the only ASCII letter a
multi-byte character — KELVIN SIGN — can lowercase to, so the count
controls how far a byte index can drift from a character count). -/
def countK : List Char → Nat
  | [] => 0
  | c :: rest => (if c = 'k' then 1 else 0) + countK rest

/-! ## Theorems -/

/-- C5: `should_flush(now_ms)` is true iff the buffer is non-empty and
`now_ms - last_flush_ms ≥ chunk_duration_ms` (saturating `u64`
subtraction, i.e. truncated `Nat` subtraction); in particular it is false
for an empty buffer regardless of the timestamp. -/
theorem should_flush_iff (c : AudioChunker) (now_ms : Nat) :
    c.should_flush now_ms = true ↔
      ¬ c.buffer = [] ∧ c.chunk_duration_ms ≤ now_ms - c.last_flush_ms := by
  rcases c with ⟨buf, sr, dur, last⟩
  cases buf <;> simp [AudioChunker.should_flush]

/-- C6 counterexample: the claim "in every case, after a successful flush
the buffer is empty and the flush timestamp is reset" fails on the code.
After `add_chunk` of a chunk with empty sample data and timestamp 7 the
buffer is empty but `last_flush_ms = 7`; `flush` then takes the early
empty-buffer return (successfully yielding empty bytes) and leaves
`last_flush_ms = 7`, not 0. -/
theorem flush_empty_keeps_timestamp :
    (((AudioChunker.new 3000).add_chunk ⟨[], 7⟩).flush).2 = [] ∧
    ¬ (((AudioChunker.new 3000).add_chunk ⟨[], 7⟩).flush).1.last_flush_ms = 0 := by
  decide

/-- C6 amended: `flush` on an empty buffer returns empty bytes and leaves
the chunker (including its flush timestamp) unchanged; on a non-empty
buffer it returns a WAV byte stream with `bytes[0..4] = "RIFF"` and
`bytes[8..12] = "WAVE"` (44-byte canonical header followed by the samples
as little-endian 16-bit mono PCM) and afterwards the buffer is empty and
the flush timestamp is reset to 0. -/
theorem flush_spec_amended (c : AudioChunker) :
    (c.buffer = [] → c.flush = (c, [])) ∧
    (¬ c.buffer = [] →
      (c.flush).2.take 4 = [0x52, 0x49, 0x46, 0x46] ∧
      ((c.flush).2.drop 8).take 4 = [0x57, 0x41, 0x56, 0x45] ∧
      (c.flush).1.buffer = [] ∧ (c.flush).1.last_flush_ms = 0) := by
  rcases c with ⟨buf, sr, dur, last⟩
  cases buf with
  | nil => simp [AudioChunker.flush]
  | cons a l =>
    refine ⟨by simp, fun _ => ?_⟩
    simp [AudioChunker.flush, encode_wav, u32le, u16le]

/-- C6 witness: both branches of `flush_spec_amended` at concrete
chunkers. -/
theorem flush_spec_amended_witness :
    (AudioChunker.new 3000).flush = (AudioChunker.new 3000, []) ∧
    ((⟨[100, -200], 16000, 3000, 99⟩ : AudioChunker).flush).2.take 4 =
      [0x52, 0x49, 0x46, 0x46] ∧
    ((⟨[100, -200], 16000, 3000, 99⟩ : AudioChunker).flush).1.last_flush_ms = 0 :=
  ⟨(flush_spec_amended (AudioChunker.new 3000)).1 rfl,
   (((flush_spec_amended ⟨[100, -200], 16000, 3000, 99⟩).2 (by decide))).1,
   (((flush_spec_amended ⟨[100, -200], 16000, 3000, 99⟩).2 (by decide))).2.2.2⟩

/-- C7 counterexample: on a fresh chunker, after `add_chunk` of a first
chunk with `timestamp_ms = 0` followed by a second with `timestamp_ms = 7`,
the recorded reference timestamp is 7 — the timestamp of the second chunk,
not of the first (the code uses `last_flush_ms == 0` as the "no chunk yet"
sentinel, which misfires when the first chunk's timestamp is itself 0). -/
theorem add_chunk_zero_ts_counterexample :
    (((AudioChunker.new 3000).add_chunk ⟨[1], 0⟩).add_chunk ⟨[2], 7⟩).last_flush_ms = 7 ∧
    ¬ (((AudioChunker.new 3000).add_chunk ⟨[1], 0⟩).add_chunk ⟨[2], 7⟩).last_flush_ms =
      (⟨[1], 0⟩ : AudioChunk).timestamp_ms := by
  decide

/-- `add_chunk` only touches `last_flush_ms` when it is 0. -/
theorem add_chunk_last_flush (c : AudioChunker) (ch : AudioChunk) :
    (c.add_chunk ch).last_flush_ms =
      if c.last_flush_ms = 0 then ch.timestamp_ms else c.last_flush_ms := by
  simp only [AudioChunker.add_chunk]
  split <;> rfl

/-- A non-zero `last_flush_ms` survives any further `add_chunk` calls. -/
theorem foldl_add_chunk_ne_zero (chunks : List AudioChunk) (c : AudioChunker)
    (h : ¬ c.last_flush_ms = 0) :
    (chunks.foldl AudioChunker.add_chunk c).last_flush_ms = c.last_flush_ms := by
  induction chunks generalizing c with
  | nil => rfl
  | cons ch rest ih =>
    have hstep : (c.add_chunk ch).last_flush_ms = c.last_flush_ms := by
      rw [add_chunk_last_flush]; simp [h]
    simp only [List.foldl_cons]
    rw [ih _ (by rw [hstep]; exact h), hstep]

/-- C7 amended: starting from a chunker whose flush timestamp is 0 (fresh,
or just flushed), after any sequence of `add_chunk` calls the recorded
reference timestamp equals the timestamp of the first added chunk whose
`timestamp_ms` is non-zero (and stays 0 when every chunk has timestamp 0);
for a first chunk with non-zero timestamp this is the first chunk's
timestamp, but a first chunk with `timestamp_ms = 0` is not recorded. -/
theorem add_chunk_records_first_nonzero_ts (c : AudioChunker)
    (chunks : List AudioChunk) (h : c.last_flush_ms = 0) :
    (chunks.foldl AudioChunker.add_chunk c).last_flush_ms = firstNonzeroTs chunks := by
  induction chunks generalizing c with
  | nil => simpa [firstNonzeroTs] using h
  | cons ch rest ih =>
    have hstep : (c.add_chunk ch).last_flush_ms = ch.timestamp_ms := by
      rw [add_chunk_last_flush]; simp [h]
    simp only [List.foldl_cons]
    by_cases hts : ch.timestamp_ms = 0
    · rw [ih _ (by rw [hstep]; exact hts)]
      simp [firstNonzeroTs, hts]
    · rw [foldl_add_chunk_ne_zero _ _ (by rw [hstep]; exact hts), hstep]
      simp [firstNonzeroTs, hts]

/-- C7 witness: `add_chunk_records_first_nonzero_ts` at a fresh chunker
and the two-chunk sequence of the counterexample. -/
theorem add_chunk_records_first_nonzero_ts_witness :
    (AudioChunker.new 3000).last_flush_ms = 0 ∧
    (([⟨[1], 0⟩, ⟨[2], 7⟩] : List AudioChunk).foldl AudioChunker.add_chunk
      (AudioChunker.new 3000)).last_flush_ms =
      firstNonzeroTs [⟨[1], 0⟩, ⟨[2], 7⟩] :=
  ⟨rfl, add_chunk_records_first_nonzero_ts (AudioChunker.new 3000) _ rfl⟩

/-- C8: with one channel and equal input and output sample rates,
`resample` is the identity on the sample sequence (including the empty
one). -/
theorem resample_identity (r : AudioResampler) (input : List Int)
    (hch : r.channels = 1) (hrate : r.input_sample_rate = r.output_sample_rate) :
    r.resample input = .ok input := by
  rcases input with _ | ⟨a, l⟩
  · simp [AudioResampler.resample]
  · simp [AudioResampler.resample, AudioResampler.to_mono, hch, hrate]

/-- C8 witness: `resample_identity` at a concrete 16 kHz mono resampler
and input. -/
theorem resample_identity_witness :
    (⟨16000, 16000, 1⟩ : AudioResampler).channels = 1 ∧
    (⟨16000, 16000, 1⟩ : AudioResampler).input_sample_rate =
      (⟨16000, 16000, 1⟩ : AudioResampler).output_sample_rate ∧
    (⟨16000, 16000, 1⟩ : AudioResampler).resample [5, -3] = .ok [5, -3] :=
  ⟨rfl, rfl, resample_identity ⟨16000, 16000, 1⟩ [5, -3] rfl rfl⟩

/-- C9 (code bug): the claimed postcondition `rms ∈ [0,1]` fails for an
input slice containing `i16::MIN`: `calculate_rms` normalizes by
`i16::MAX = 32767`, so the single-sample slice `[-32768]` has squared RMS
`(32768/32767)² > 1` and hence RMS `32768/32767 ≈ 1.00003 > 1`,
contradicting both the claim and the code's own documentation ("range
0.0 - 1.0").  Stated on the exact squared RMS: `rms > 1 ↔ rms² > 1`. -/
theorem rms_exceeds_one_at_i16_min : 1 < calculate_rms_sq [-32768] := by
  norm_num [calculate_rms_sq]

/-- C4: with the default reconnect configuration (base 1000 ms, cap
30000 ms, max 10 retries), the delay before retry `r` is
`min(1000 · 2^r, 30000)` for every `r < 10`, and when every connection
attempt fails, the loop sleeps exactly the delays 1000, 2000, 4000, 8000,
16000, then 30000 five times, and surfaces the fatal connection-failure
error (`false`) instead of retrying again. -/
theorem backoff_schedule :
    (∀ r, r < 10 → backoff_delay .default r = min (1000 * 2 ^ r) 30000) ∧
    (∀ attempt_ok : Nat → Bool, (∀ r, attempt_ok r = false) →
      connect_with_retry_run .default attempt_ok =
        ([1000, 2000, 4000, 8000, 16000, 30000, 30000, 30000, 30000, 30000], false)) := by
  constructor
  · intro r hr
    have hpow : 2 ^ r ≤ 2 ^ 9 := Nat.pow_le_pow_right (by norm_num) (by omega)
    have hm1 : (2 : Nat) ^ r % 2 ^ 64 = 2 ^ r :=
      Nat.mod_eq_of_lt (lt_of_le_of_lt hpow (by norm_num))
    have hm2 : 1000 * 2 ^ r % 2 ^ 64 = 1000 * 2 ^ r :=
      Nat.mod_eq_of_lt (lt_of_le_of_lt (Nat.mul_le_mul_left 1000 hpow) (by norm_num))
    show min (1000 * (2 ^ r % 2 ^ 64) % 2 ^ 64) 30000 = min (1000 * 2 ^ r) 30000
    rw [hm1, hm2]
  · intro attempt_ok hfail
    have hfn : attempt_ok = fun _ => false := funext hfail
    rw [hfn]
    decide

/-- C4 witness: `backoff_schedule` at retry 5 and at the all-failures
attempt sequence. -/
theorem backoff_schedule_witness :
    backoff_delay .default 5 = min (1000 * 2 ^ 5) 30000 ∧
    connect_with_retry_run .default (fun _ => false) =
      ([1000, 2000, 4000, 8000, 16000, 30000, 30000, 30000, 30000, 30000], false) :=
  ⟨backoff_schedule.1 5 (by norm_num),
   backoff_schedule.2 (fun _ => false) (fun _ => rfl)⟩

/-- C3: `start` called in `Recording`, `Transcribing` or `Processing`
fails the guard (an `InvalidState` error) and leaves the state unchanged;
called in `Done` or `Error` it behaves exactly like a start from `Idle`
(the silent reset to `Idle` followed by the transition), and a start from
`Idle` passes the guard and moves the state to `Recording`. -/
theorem start_state_guard (s : PipelineState) :
    ((s = .Recording ∨ s = .Transcribing ∨ s = .Processing) →
      start_step s = (s, false)) ∧
    ((s = .Done ∨ s = .Error) → start_step s = start_step .Idle) ∧
    start_step .Idle = (.Recording, true) := by
  cases s <;> simp [start_step, start_from_idle]

/-- C3 witness: `start_state_guard` at the concrete states `Recording`,
`Done` and `Idle`. -/
theorem start_state_guard_witness :
    start_step .Recording = (.Recording, false) ∧
    start_step .Done = start_step .Idle ∧
    start_step .Idle = (.Recording, true) :=
  ⟨(start_state_guard .Recording).1 (Or.inl rfl),
   (start_state_guard .Done).2.1 (Or.inl rfl),
   (start_state_guard .Idle).2.2⟩

/-- C2: when the accumulated transcription is non-empty and the LLM
processor fails, the post-processing still writes the raw transcription to
the output sink, emits a `FinalResult` carrying the raw transcription, and
sets the pipeline state to `Error` — the text is not dropped. -/
theorem llm_failure_outputs_raw (full_transcription msg : String)
    (h : ¬ full_transcription = "") :
    postProcess full_transcription (.error msg) =
      ([full_transcription], some full_transcription, .Error) := by
  simp [postProcess, h]

/-- C2 witness: `llm_failure_outputs_raw` at a concrete transcription and
error. -/
theorem llm_failure_outputs_raw_witness :
    ¬ ("hello world" : String) = "" ∧
    postProcess "hello world" (.error "LLM down") =
      (["hello world"], some "hello world", .Error) :=
  ⟨by decide, llm_failure_outputs_raw "hello world" "LLM down" (by decide)⟩

/-- The `last_partial_text` accumulator of the transcription loop tracks
exactly the last non-empty `Partial` text over the processed events. -/
theorem foldl_transStep_last_partial (es : List TranscriptionEvent)
    (st : TransLoopState) :
    (es.foldl transStep st).last_partial_text =
      es.foldl
        (fun acc e =>
          match e with
          | .partialTr t _ => if t = "" then acc else t
          | _ => acc) st.last_partial_text := by
  induction es generalizing st with
  | nil => rfl
  | cons e rest ih =>
    cases e with
    | partialTr t ts =>
      by_cases ht : t = "" <;> simp [transStep, ht, ih]
    | committedTr t ts => simp [transStep, ih]
    | errorTr m => simp [transStep, ih]

/-- C1: over any event stream, if the transcription loop accumulated no
committed text but the consumed prefix of the stream contains at least one
`Partial` with non-empty text, then the final transcription used for
command detection and downstream processing is the text of the last
non-empty `Partial` consumed. -/
theorem fallback_last_partial (events : List TranscriptionEvent)
    (hfull : (runLoop events).full_transcription = "")
    (hpart : ¬ lastNonEmptyPartialText (consumedEvents events) = "") :
    finalTranscription events = lastNonEmptyPartialText (consumedEvents events) := by
  have hlp : (runLoop events).last_partial_text =
      lastNonEmptyPartialText (consumedEvents events) :=
    foldl_transStep_last_partial (consumedEvents events) _
  simp only [finalTranscription]
  rw [hlp, hfull]
  simp [hpart]

/-- C1 witness: the spec's example — `Partial{"hello"}`,
`Partial{"hello world"}`, then stream close, with no `Committed`, yields
final transcription `"hello world"`. -/
theorem fallback_last_partial_witness :
    (runLoop [.partialTr "hello" 1, .partialTr "hello world" 2]).full_transcription = "" ∧
    lastNonEmptyPartialText
      (consumedEvents [.partialTr "hello" 1, .partialTr "hello world" 2]) = "hello world" ∧
    finalTranscription [.partialTr "hello" 1, .partialTr "hello world" 2] = "hello world" := by
  refine ⟨by decide, by decide, ?_⟩
  have h := fallback_last_partial [.partialTr "hello" 1, .partialTr "hello world" 2]
    (by decide) (by decide)
  rw [h]
  decide

/-- `strStartsWith` means an initial segment. -/
theorem strStartsWith_exists {s p : List Char} (h : strStartsWith s p = true) :
    ∃ t, s = p ++ t := by
  induction p generalizing s with
  | nil => exact ⟨s, rfl⟩
  | cons d p2 ih =>
    cases s with
    | nil => simp [strStartsWith] at h
    | cons c s2 =>
      simp only [strStartsWith, Bool.and_eq_true, decide_eq_true_eq] at h
      obtain ⟨rfl, h2⟩ := h
      obtain ⟨t, rfl⟩ := ih h2
      exact ⟨t, rfl⟩

/-- An ASCII character is one UTF-8 byte. -/
theorem utf8Size_of_ascii {c : Char} (h : c.toNat < 128) : utf8Size c = 1 := by
  simp [utf8Size, h]

/-- Unfolding `byteDrop` at zero. -/
theorem byteDrop_zero (s : List Char) : byteDrop s 0 = some s := by
  cases s <;> rfl

/-- Unfolding `byteDrop` at a cons and a positive byte count. -/
theorem byteDrop_cons_succ (c : Char) (rest : List Char) (n : Nat) :
    byteDrop (c :: rest) (n + 1) =
      if utf8Size c ≤ n + 1 then byteDrop rest (n + 1 - utf8Size c) else none := rfl

/-- Dropping a cons from the tail end of a `getLast?` disequality. -/
theorem getLast?_tail_ne {d : Char} {p2 : List Char} {x : Char}
    (hI : ¬ (d :: p2).getLast? = some x) : ¬ p2.getLast? = some x := by
  cases p2 with
  | nil => simp
  | cons y p3 => rw [List.getLast?_cons_cons] at hI; exact hI

/-- Every byte index below the length of a fully matched ASCII prefix
containing no `'k'` is a character boundary of the original string: with
no `'k'` (hence no KELVIN SIGN on the source side) and the prefix not
ending in `'i'` (hence no İ), every source character consumed by the
match is a single byte. -/
theorem byteDrop_isSome_ascii_noK (lc : Char → List Char)
    (h1 : LowerNonEmpty lc) (h2 : LowerAsciiShape lc) :
    ∀ (cs p t : List Char) (n : Nat),
      (∀ c ∈ p, c.toNat < 128) → countK p = 0 → ¬ p.getLast? = some 'i' →
      p ++ t = cs.flatMap lc → n ≤ p.length →
      (byteDrop cs n).isSome = true := by
  intro cs
  induction cs with
  | nil =>
    intro p t n hA hk hI heq hn
    rw [List.flatMap_nil] at heq
    obtain ⟨hp, -⟩ := List.append_eq_nil.mp heq
    subst hp
    simp only [List.length_nil, Nat.le_zero] at hn
    subst hn
    simp [byteDrop_zero]
  | cons c cs2 ih =>
    intro p t n hA hk hI heq hn
    match n with
    | 0 => simp [byteDrop_zero]
    | Nat.succ m =>
      cases p with
      | nil => simp at hn
      | cons d p2 =>
        obtain ⟨e, es, hlc⟩ : ∃ e es, lc c = e :: es := by
          cases hcc : lc c with
          | nil => exact absurd hcc (h1 c)
          | cons e es => exact ⟨e, es, rfl⟩
        rw [List.flatMap_cons, hlc] at heq
        simp only [List.cons_append] at heq
        injection heq with hde heq2
        subst hde
        have hdA : d.toNat < 128 := hA d (List.mem_cons_self d p2)
        rcases h2 c d es hlc hdA with ⟨hes, hsz⟩ | ⟨hck, hdk, hes⟩ | ⟨hcI, hdi, hes⟩
        · subst hes
          rw [List.nil_append] at heq2
          rw [byteDrop_cons_succ, hsz, if_pos (by omega)]
          have hm : m + 1 - 1 = m := by omega
          rw [hm]
          refine ih p2 t m (fun x hx => hA x (List.mem_cons_of_mem d hx)) ?_
            (getLast?_tail_ne hI) heq2 ?_
          · have hkc : countK (d :: p2) = 0 := hk
            simp only [countK] at hkc
            omega
          · simp only [List.length_cons] at hn
            omega
        · subst hdk
          have hkc : countK ('k' :: p2) = 0 := hk
          simp [countK] at hkc
        · subst hdi
          subst hes
          cases p2 with
          | nil => simp at hI
          | cons x p3 =>
            simp only [List.cons_append] at heq2
            injection heq2 with hx hrest
            have hxA : x.toNat < 128 := hA x (by simp)
            rw [hx] at hxA
            exact absurd hxA (by decide)

/-- The byte length of a fully matched ASCII prefix is a character
boundary of the original string, provided the prefix does not end in
`'i'`, contains at most one `'k'`, and any `'k'` is followed by at least
two further characters.  (A KELVIN SIGN on the source side is three bytes
for one matched character, so the boundary at the prefix end sits two
bytes before the end of the consumed source characters — inside the
source only if a `'k'` were within the last two positions.) -/
theorem byteDrop_isSome_ascii_oneK (lc : Char → List Char)
    (h1 : LowerNonEmpty lc) (h2 : LowerAsciiShape lc) :
    ∀ (cs p t : List Char),
      (∀ c ∈ p, c.toNat < 128) → countK p ≤ 1 →
      (∀ j, j < p.length → p.getD j ' ' = 'k' → j + 3 ≤ p.length) →
      ¬ p.getLast? = some 'i' →
      p ++ t = cs.flatMap lc →
      (byteDrop cs p.length).isSome = true := by
  intro cs
  induction cs with
  | nil =>
    intro p t hA hc hK2 hI heq
    rw [List.flatMap_nil] at heq
    obtain ⟨hp, -⟩ := List.append_eq_nil.mp heq
    subst hp
    simp [byteDrop_zero]
  | cons c cs2 ih =>
    intro p t hA hc hK2 hI heq
    cases p with
    | nil => simp [byteDrop_zero]
    | cons d p2 =>
      obtain ⟨e, es, hlc⟩ : ∃ e es, lc c = e :: es := by
        cases hcc : lc c with
        | nil => exact absurd hcc (h1 c)
        | cons e es => exact ⟨e, es, rfl⟩
      rw [List.flatMap_cons, hlc] at heq
      simp only [List.cons_append] at heq
      injection heq with hde heq2
      subst hde
      have hdA : d.toNat < 128 := hA d (List.mem_cons_self d p2)
      rcases h2 c d es hlc hdA with ⟨hes, hsz⟩ | ⟨hck, hdk, hes⟩ | ⟨hcI, hdi, hes⟩
      · subst hes
        rw [List.nil_append] at heq2
        rw [List.length_cons, byteDrop_cons_succ, hsz, if_pos (by omega)]
        have hm : p2.length + 1 - 1 = p2.length := by omega
        rw [hm]
        refine ih p2 t (fun x hx => hA x (List.mem_cons_of_mem d hx)) ?_ ?_
          (getLast?_tail_ne hI) heq2
        · have hkc := hc
          simp only [countK] at hkc
          omega
        · intro j hj hg
          have := hK2 (j + 1) (by simp only [List.length_cons]; omega)
            (by rw [List.getD_cons_succ]; exact hg)
          simp only [List.length_cons] at this
          omega
      · subst hck
        subst hdk
        subst hes
        rw [List.nil_append] at heq2
        have h3 : 3 ≤ ('k' :: p2).length := by
          refine hK2 0 (by simp) ?_
          rw [List.getD_cons_zero]
        simp only [List.length_cons] at h3
        have hk0 : countK p2 = 0 := by
          have hkc := hc
          simp [countK] at hkc
          omega
        rw [List.length_cons, byteDrop_cons_succ]
        have hsz3 : utf8Size kelvinChar = 3 := by decide
        rw [hsz3, if_pos (by omega)]
        have hm : p2.length + 1 - 3 = p2.length - 2 := by omega
        rw [hm]
        exact byteDrop_isSome_ascii_noK lc h1 h2 cs2 p2 t (p2.length - 2)
          (fun x hx => hA x (List.mem_cons_of_mem _ hx)) hk0
          (getLast?_tail_ne hI) heq2 (by omega)
      · subst hdi
        subst hes
        cases p2 with
        | nil => simp at hI
        | cons x p3 =>
          simp only [List.cons_append] at heq2
          injection heq2 with hx hrest
          have hxA : x.toNat < 128 := hA x (by simp)
          rw [hx] at hxA
          exact absurd hxA (by decide)

/-- The branch step `trimmed[prefix_len..].trim()` of `detect_command`
succeeds whenever the lowercased text starts with the branch's ASCII
prefix (side conditions as in `byteDrop_isSome_ascii_oneK`). -/
theorem slice_trim_isSome (lc : Char → List Char) (ws : Char → Bool)
    (h1 : LowerNonEmpty lc) (h2 : LowerAsciiShape lc)
    (trimmed p : List Char) (n : Nat) (hn : p.length = n)
    (hA : ∀ c ∈ p, c.toNat < 128) (hc : countK p ≤ 1)
    (hK2 : ∀ j, j < p.length → p.getD j ' ' = 'k' → j + 3 ≤ p.length)
    (hI : ¬ p.getLast? = some 'i')
    (hmatch : strStartsWith (trimmed.flatMap lc) p = true) :
    (slice_trim ws trimmed n).isSome = true := by
  subst hn
  obtain ⟨t, ht⟩ := strStartsWith_exists hmatch
  have hbd := byteDrop_isSome_ascii_oneK lc h1 h2 trimmed p t hA hc hK2 hI ht.symm
  obtain ⟨r, hr⟩ := Option.isSome_iff_exists.mp hbd
  simp [slice_trim, hr]

/-- C10: `detect_command` is total — for every input string (including
non-ASCII text whose lowercased form differs in byte length from the
original), every whitespace class, every lowercase expansion satisfying
the Unicode facts `LowerNonEmpty` and `LowerAsciiShape`, and every
dictionary-term list, `detect_command` returns a `CommandDetection`
(never `none`, the model of a byte-slice panic): the byte index taken in
the original text after a matched command prefix always falls on a
character boundary. -/
theorem detect_command_total (lc : Char → List Char) (ws : Char → Bool)
    (text : List Char) (dictionary_terms : List (List Char))
    (h1 : LowerNonEmpty lc) (h2 : LowerAsciiShape lc) :
    (detect_command lc ws text dictionary_terms).isSome = true := by
  simp only [detect_command]
  set L := (trim ws text).flatMap lc with hL
  by_cases hb1 : (strStartsWith L ("shorten this:".toList) ||
      strStartsWith L ("shorten:".toList)) = true
  · rw [if_pos hb1]
    by_cases hp : strStartsWith L ("shorten this:".toList) = true
    · rw [if_pos hp]
      obtain ⟨r, hr⟩ := Option.isSome_iff_exists.mp
        (slice_trim_isSome lc ws h1 h2 (trim ws text) ("shorten this:".toList) 13
          (by decide) (by decide) (by decide) (by decide) (by decide) hp)
      rw [hr]; rfl
    · rw [if_neg hp]
      have hq : strStartsWith L ("shorten:".toList) = true := by
        rw [Bool.or_eq_true] at hb1
        rcases hb1 with h | h
        · exact absurd h hp
        · exact h
      obtain ⟨r, hr⟩ := Option.isSome_iff_exists.mp
        (slice_trim_isSome lc ws h1 h2 (trim ws text) ("shorten:".toList) 8
          (by decide) (by decide) (by decide) (by decide) (by decide) hq)
      rw [hr]; rfl
  · rw [if_neg hb1]
    by_cases hb2 : (strStartsWith L ("make it formal:".toList) ||
        strStartsWith L ("formalize:".toList)) = true
    · rw [if_pos hb2]
      by_cases hp : strStartsWith L ("make it formal:".toList) = true
      · rw [if_pos hp]
        obtain ⟨r, hr⟩ := Option.isSome_iff_exists.mp
          (slice_trim_isSome lc ws h1 h2 (trim ws text) ("make it formal:".toList) 15
            (by decide) (by decide) (by decide) (by decide) (by decide) hp)
        rw [hr]; rfl
      · rw [if_neg hp]
        have hq : strStartsWith L ("formalize:".toList) = true := by
          rw [Bool.or_eq_true] at hb2
          rcases hb2 with h | h
          · exact absurd h hp
          · exact h
        obtain ⟨r, hr⟩ := Option.isSome_iff_exists.mp
          (slice_trim_isSome lc ws h1 h2 (trim ws text) ("formalize:".toList) 10
            (by decide) (by decide) (by decide) (by decide) (by decide) hq)
        rw [hr]; rfl
    · rw [if_neg hb2]
      by_cases hb3 : (strStartsWith L ("make it casual:".toList) ||
          strStartsWith L ("casualize:".toList)) = true
      · rw [if_pos hb3]
        by_cases hp : strStartsWith L ("make it casual:".toList) = true
        · rw [if_pos hp]
          obtain ⟨r, hr⟩ := Option.isSome_iff_exists.mp
            (slice_trim_isSome lc ws h1 h2 (trim ws text) ("make it casual:".toList) 15
              (by decide) (by decide) (by decide) (by decide) (by decide) hp)
          rw [hr]; rfl
        · rw [if_neg hp]
          have hq : strStartsWith L ("casualize:".toList) = true := by
            rw [Bool.or_eq_true] at hb3
            rcases hb3 with h | h
            · exact absurd h hp
            · exact h
          obtain ⟨r, hr⟩ := Option.isSome_iff_exists.mp
            (slice_trim_isSome lc ws h1 h2 (trim ws text) ("casualize:".toList) 10
              (by decide) (by decide) (by decide) (by decide) (by decide) hq)
          rw [hr]; rfl
      · rw [if_neg hb3]
        by_cases hb4 : (strStartsWith L ("reply to:".toList) ||
            strStartsWith L ("generate reply:".toList)) = true
        · rw [if_pos hb4]
          by_cases hp : strStartsWith L ("generate reply:".toList) = true
          · rw [if_pos hp]
            obtain ⟨r, hr⟩ := Option.isSome_iff_exists.mp
              (slice_trim_isSome lc ws h1 h2 (trim ws text) ("generate reply:".toList) 15
                (by decide) (by decide) (by decide) (by decide) (by decide) hp)
            rw [hr]; rfl
          · rw [if_neg hp]
            have hq : strStartsWith L ("reply to:".toList) = true := by
              rw [Bool.or_eq_true] at hb4
              rcases hb4 with h | h
              · exact h
              · exact absurd h hp
            obtain ⟨r, hr⟩ := Option.isSome_iff_exists.mp
              (slice_trim_isSome lc ws h1 h2 (trim ws text) ("reply to:".toList) 9
                (by decide) (by decide) (by decide) (by decide) (by decide) hq)
            rw [hr]; rfl
        · rw [if_neg hb4]
          by_cases hb5 : strStartsWith L ("translate to ".toList) = true
          · rw [if_pos hb5]
            obtain ⟨t, ht⟩ := strStartsWith_exists hb5
            have hbd : (byteDrop (trim ws text) 13).isSome = true := by
              have h13 : ("translate to ".toList).length = 13 := by decide
              have h := byteDrop_isSome_ascii_oneK lc h1 h2 (trim ws text)
                ("translate to ".toList) t (by decide) (by decide) (by decide)
                (by decide) ht.symm
              rw [h13] at h
              exact h
            obtain ⟨ap, hap⟩ := Option.isSome_iff_exists.mp hbd
            rw [hap]
            split
            next heq => simp at heq
            next ap2 heq => split <;> rfl
          · rw [if_neg hb5]
            rfl

/-- The concrete lowercase model is non-empty on every character. -/
theorem lcModel_nonempty : LowerNonEmpty lcModel := by
  intro c
  simp only [lcModel]
  split_ifs <;> simp

/-- The concrete lowercase model satisfies the Unicode shape facts. -/
theorem lcModel_shape : LowerAsciiShape lcModel := by
  intro c d ds hlc hd
  simp only [lcModel] at hlc
  split_ifs at hlc with hk hi
  · injection hlc with hd1 hd2
    right; left
    exact ⟨hk, hd1.symm, hd2.symm⟩
  · injection hlc with hd1 hd2
    right; right
    exact ⟨hi, hd1.symm, hd2.symm⟩
  · injection hlc with hd1 hd2
    left
    refine ⟨hd2.symm, utf8Size_of_ascii ?_⟩
    by_cases hr : 65 ≤ c.toNat ∧ c.toNat ≤ 90
    · omega
    · have hid : asciiToLower c = c := by simp [asciiToLower, hr]
      rw [hid] at hd1
      rw [hd1]
      exact hd

/-- C10 witness: `detect_command_total` at the concrete lowercase model
and a text containing KELVIN SIGN, whose lowercased form is two bytes
shorter than the original (`"MA" ++ KELVIN ++ "E IT FORMAL: HELLO"`
lowercases to `"make it formal: hello"`). -/
theorem detect_command_total_witness :
    LowerNonEmpty lcModel ∧ LowerAsciiShape lcModel ∧
    (detect_command lcModel Char.isWhitespace
      ("MA".toList ++ [kelvinChar] ++ "E IT FORMAL: HELLO".toList) []).isSome = true :=
  ⟨lcModel_nonempty, lcModel_shape,
   detect_command_total lcModel Char.isWhitespace
     ("MA".toList ++ [kelvinChar] ++ "E IT FORMAL: HELLO".toList) []
     lcModel_nonempty lcModel_shape⟩

end Murmur
